import Mathlib

/-!
Shallow embedding of the peer filtering and similarity ranking engine of the
transit_benchmark repository (app/src/components/FilterStep.tsx together with
the data model of app/src/types.ts), with theorems settling the specification
claims about it.

Conventions of the embedding:
* JavaScript numbers are modelled as real numbers (the metrics are decimal
  data; Math.log is the real natural logarithm).
* A JavaScript `Map` is modelled as a function into `Option`: `get` returns
  `none` exactly when the key is absent (JS returns `undefined`).
* A JavaScript `Set` of numeric ids is modelled as a `Finset ℕ`.
* JavaScript strings are Lean strings; `String.prototype.includes` is
  substring containment on the underlying character sequences, and
  `toLowerCase` is `String.toLower`.
* `Array.prototype.sort` with comparator `(a, b) => a.similarity - b.similarity`
  is a stable ascending sort by similarity; it is modelled by
  `List.mergeSort` with the total order on the similarity component.
-/

/-- The `Agency` interface of app/src/types.ts (lines 22-42): one row per
transit agency, latest reporting year snapshot.  Optional (`T | null`)
fields are `Option`.  The staged interface lists no `rides_per_capita`
field, but the runtime agency records are unvalidated JSON produced by the
data pipeline (preprocess.py, not under src/), which the repository
documentation says calculates the derived metric `rides_per_capita`; that
field is therefore included, modelled from the spec. -/
structure Agency where
  ntd_id : ℕ
  agency : String
  city : String
  state : String
  organization_type : String
  reporter_type : String
  uza_name : Option String
  primary_uza_population : Option ℝ
  agency_voms : Option ℝ
  modes : List String
  unlinked_passenger_trips : ℝ
  total_operating_expenses : ℝ
  fare_revenues_earned : ℝ
  vehicle_revenue_hours : ℝ
  vehicle_revenue_miles : ℝ
  cost_per_trip : Option ℝ
  fare_per_trip : Option ℝ
  farebox_recovery : Option ℝ
  trips_per_hour : Option ℝ
  /-- Modelled from the spec: the derived metric `rides_per_capita`
  supplied by the data pipeline that is missing from src/ (spec section 3
  lists it among the optional derived metrics of an Agency, undefined when
  a denominator is zero or a required input is absent). -/
  rides_per_capita : Option ℝ

/-- The `SimilarityCriterion` tags as used by `SIMILARITY_CRITERIA` and
`getCriterionValue` in FilterStep.tsx.  (The union type in types.ts lists
seven of these; FilterStep.tsx additionally uses the tag
`rides_per_capita`.) -/
inductive SimilarityCriterion where
  | population
  | ridership
  | fare_per_trip
  | cost_per_trip
  | operating_expenses
  | vehicle_revenue_hours
  | vehicle_revenue_miles
  | rides_per_capita
deriving DecidableEq, Repr

/-- The `Filters` interface of app/src/types.ts. -/
structure Filters where
  reporterTypes : List String
  modes : List String
  states : List String
  searchQuery : String

/-- The `INITIAL_FILTERS` constant of FilterStep.tsx. -/
def INITIAL_FILTERS : Filters :=
  { reporterTypes := [], modes := [], states := [], searchQuery := "" }

/-- The `SIMILARITY_CRITERIA` constant of FilterStep.tsx: the list of
criterion keys with their display labels. -/
def SIMILARITY_CRITERIA : List (SimilarityCriterion × String) :=
  [ (.population, "Population"),
    (.ridership, "Annual Ridership"),
    (.fare_per_trip, "Fare per Trip"),
    (.cost_per_trip, "Cost per Passenger"),
    (.operating_expenses, "Total Operating Expenses"),
    (.vehicle_revenue_hours, "Vehicle Revenue Hours"),
    (.vehicle_revenue_miles, "Vehicle Revenue Miles"),
    (.rides_per_capita, "Rides per Capita") ]

/-- The `getCriterionValue` function of FilterStep.tsx: raw value of a
criterion for an agency, with the `?? 0` fallback on the optional fields,
including the pipeline-supplied `rides_per_capita` read by
`agency.rides_per_capita ?? 0`. -/
def getCriterionValue (agency : Agency) (criterion : SimilarityCriterion) : ℝ :=
  match criterion with
  | .population => agency.primary_uza_population.getD 0
  | .ridership => agency.unlinked_passenger_trips
  | .fare_per_trip => agency.fare_per_trip.getD 0
  | .cost_per_trip => agency.cost_per_trip.getD 0
  | .operating_expenses => agency.total_operating_expenses
  | .vehicle_revenue_hours => agency.vehicle_revenue_hours
  | .vehicle_revenue_miles => agency.vehicle_revenue_miles
  | .rides_per_capita => agency.rides_per_capita.getD 0

/-- Minimum of a list of reals, `Math.min(...values)`.  The value for the
empty list is arbitrary (JS would give `Infinity`): `normalizeValues` only
uses the minimum through a map over the same list, so the empty case never
reaches an output. -/
def listMin : List ℝ → ℝ
  | [] => 0
  | x :: xs => xs.foldl min x

/-- Maximum of a list of reals, `Math.max(...values)`; see `listMin` for the
empty case. -/
def listMax : List ℝ → ℝ
  | [] => 0
  | x :: xs => xs.foldl max x

/-- The `normalizeValues` function of FilterStep.tsx (lines 56-63): log
transform (adding 1 to handle zeros) followed by min-max scaling, with the
range replaced by 1 when it is zero (`max - min || 1`). -/
noncomputable def normalizeValues (values : List ℝ) : List ℝ :=
  let logValues := values.map (fun v => Real.log (v + 1))
  let mn := listMin logValues
  let mx := listMax logValues
  let range := if mx - mn = 0 then 1 else mx - mn
  logValues.map (fun v => (v - mn) / range)

/-- The type of the precomputed `normalizedValues` map of FilterStep.tsx:
`Map<SimilarityCriterion, Map<number, number>>`, with `Map.get` modelled as
a function into `Option`. -/
def NormMap : Type :=
  SimilarityCriterion → Option (ℕ → Option ℝ)

/-- The lookup `normalizedValues.get(criterion)?.get(id) ?? 0` used by
`calculateSimilarity`. -/
noncomputable def lookupNorm (normalizedValues : NormMap) (criterion : SimilarityCriterion)
    (id : ℕ) : ℝ :=
  ((normalizedValues criterion).bind (fun m => m id)).getD 0

/-- The `calculateSimilarity` function of FilterStep.tsx (lines 66-81):
early return 0 on an empty criteria list, otherwise the loop accumulating
`Math.abs(homeNorm - otherNorm)` over the selected criteria. -/
noncomputable def calculateSimilarity (homeAgency otherAgency : Agency)
    (criteria : List SimilarityCriterion) (normalizedValues : NormMap) : ℝ :=
  if criteria = [] then 0
  else
    criteria.foldl
      (fun totalDiff criterion =>
        totalDiff +
          |lookupNorm normalizedValues criterion homeAgency.ntd_id -
            lookupNorm normalizedValues criterion otherAgency.ntd_id|)
      0

/-- JavaScript `hay.includes(needle)`: substring containment on the
character sequences. -/
def jsIncludes (hay needle : String) : Bool :=
  decide (needle.data <:+: hay.data)

/-- The `matchesSearch` constant inside the `filteredAgencies` callback of
FilterStep.tsx: case-insensitive substring match of the query against
agency name, city, or metro-area (`uza_name`) name, the last with the
`?? false` fallback for a null `uza_name`. -/
def matchesSearch (filters : Filters) (agency : Agency) : Bool :=
  let query := filters.searchQuery.toLower
  jsIncludes agency.agency.toLower query ||
    jsIncludes agency.city.toLower query ||
      (agency.uza_name.map (fun u => jsIncludes u.toLower query)).getD false

/-- The predicate of the `agencies.filter` callback in the
`filteredAgencies` memo of FilterStep.tsx (lines 130-163), with each early
`return false` rendered as an `if _ then false else` step:
home-agency exclusion, search query, reporter type (ANY), modes (ALL),
state (ANY). -/
def peerFilterPred (homeAgency : Option Agency) (filters : Filters) (agency : Agency) : Bool :=
  if homeAgency.any (fun home => agency.ntd_id == home.ntd_id) then false
  else if !(filters.searchQuery == "") && !(matchesSearch filters agency) then false
  else if decide (0 < filters.reporterTypes.length) &&
      !(filters.reporterTypes.contains agency.reporter_type) then false
  else if decide (0 < filters.modes.length) &&
      !(filters.modes.all (fun m => agency.modes.contains m)) then false
  else if decide (0 < filters.states.length) &&
      !(filters.states.contains agency.state) then false
  else true

/-- The `filteredAgencies` memo of FilterStep.tsx: the agency universe
restricted by `peerFilterPred`. -/
def filteredAgencies (agencies : List Agency) (homeAgency : Option Agency)
    (filters : Filters) : List Agency :=
  agencies.filter (peerFilterPred homeAgency filters)

/-- The inner `valueMap` built for one criterion by the `normalizedValues`
memo of FilterStep.tsx (lines 166-178): `agencies.forEach((a, i) =>
valueMap.set(a.ntd_id, normalized[i]))`, modelled as a fold over the zip of
the agencies with their normalized values (the two lists have equal
length), with later writes shadowing earlier ones. -/
noncomputable def valueMapFor (agencies : List Agency) (key : SimilarityCriterion) :
    ℕ → Option ℝ :=
  let values := agencies.map (fun a => getCriterionValue a key)
  let normalized := normalizeValues values
  (agencies.zip normalized).foldl
    (fun m p => fun id => if id = p.1.ntd_id then some p.2 else m id)
    (fun _ => none)

/-- The outer map built by the `normalizedValues` memo of FilterStep.tsx:
`result.set(key, valueMap)` for each key of `SIMILARITY_CRITERIA`. -/
noncomputable def normalizedValuesMap (agencies : List Agency) : NormMap :=
  SIMILARITY_CRITERIA.foldl
    (fun result kl => fun c => if c = kl.1 then some (valueMapFor agencies kl.1) else result c)
    (fun _ => none)

/-- The `rankedAgencies` memo of FilterStep.tsx (lines 181-191): with no
home agency the filtered list is returned unranked; otherwise candidates
are paired with their similarity, stably sorted ascending by similarity
(`.sort((a, b) => a.similarity - b.similarity)`), and projected back. -/
noncomputable def rankedAgencies (homeAgency : Option Agency)
    (fAgencies : List Agency) (selectedCriteria : List SimilarityCriterion)
    (normalizedValues : NormMap) : List Agency :=
  match homeAgency with
  | none => fAgencies
  | some home =>
      ((fAgencies.map (fun agency =>
            (agency, calculateSimilarity home agency selectedCriteria normalizedValues))).mergeSort
          (fun a b => decide (a.2 ≤ b.2))).map
        (fun item => item.1)

/-- The `togglePeerSelection` handler of FilterStep.tsx (lines 228-239):
remove a member; otherwise add only while the selection has fewer than 19
elements (max 19 peers + 1 home = 20 total), else leave unchanged. -/
def togglePeerSelection (prev : Finset ℕ) (ntdId : ℕ) : Finset ℕ :=
  if ntdId ∈ prev then prev.erase ntdId
  else if prev.card < 19 then insert ntdId prev
  else prev

/-- The `selectTopN` handler of FilterStep.tsx (lines 241-244): replace the
selection with the ids of the first `n` ranked agencies. -/
def selectTopN (n : ℕ) (rankedList : List Agency) : Finset ℕ :=
  ((rankedList.take n).map (fun a => a.ntd_id)).toFinset

/-- The `clearSelection` handler of FilterStep.tsx (lines 246-248). -/
def clearSelection : Finset ℕ := ∅

/-- One user action on the peer selection state: the three setters of
`selectedPeerIds` in FilterStep.tsx. -/
inductive SelectionOp where
  | togglePeer (ntdId : ℕ)
  | selectTop (n : ℕ) (rankedList : List Agency)
  | clearSel

/-- Apply one selection operation to the current selection. -/
def applySelectionOp (s : Finset ℕ) : SelectionOp → Finset ℕ
  | .togglePeer ntdId => togglePeerSelection s ntdId
  | .selectTop n rankedList => selectTopN n rankedList
  | .clearSel => clearSelection

/-- An agency record with a given id and all other fields blank; used to
instantiate theorems at concrete inputs. -/
noncomputable def dummyAgency (id : ℕ) : Agency :=
  { ntd_id := id, agency := "", city := "", state := "",
    organization_type := "", reporter_type := "", uza_name := none,
    primary_uza_population := none, agency_voms := none, modes := [],
    unlinked_passenger_trips := 0, total_operating_expenses := 0,
    fare_revenues_earned := 0, vehicle_revenue_hours := 0,
    vehicle_revenue_miles := 0, cost_per_trip := none, fare_per_trip := none,
    farebox_recovery := none, trips_per_hour := none, rides_per_capita := none }

/-! ### Helper lemmas about list minimum and maximum -/

lemma foldl_min_le_init (l : List ℝ) (a : ℝ) : l.foldl min a ≤ a := by
  induction l generalizing a with
  | nil => simp
  | cons y ys ih =>
    calc (y :: ys).foldl min a = ys.foldl min (min a y) := rfl
    _ ≤ min a y := ih _
    _ ≤ a := min_le_left _ _

lemma foldl_min_le_mem {l : List ℝ} {x : ℝ} (a : ℝ) (hx : x ∈ l) : l.foldl min a ≤ x := by
  induction l generalizing a with
  | nil => cases hx
  | cons y ys ih =>
    rcases List.mem_cons.mp hx with h | h
    · subst h
      calc (x :: ys).foldl min a = ys.foldl min (min a x) := rfl
      _ ≤ min a x := foldl_min_le_init _ _
      _ ≤ x := min_le_right _ _
    · exact ih _ h

lemma foldl_min_mem (l : List ℝ) (a : ℝ) : l.foldl min a = a ∨ l.foldl min a ∈ l := by
  induction l generalizing a with
  | nil => simp
  | cons y ys ih =>
    rcases ih (min a y) with h | h
    · rcases min_choice a y with hc | hc
      · left
        simpa [hc] using h
      · right
        rw [List.foldl_cons, h, hc]
        exact List.mem_cons_self _ _
    · right
      exact List.mem_cons_of_mem _ h

lemma init_le_foldl_max (l : List ℝ) (a : ℝ) : a ≤ l.foldl max a := by
  induction l generalizing a with
  | nil => simp
  | cons y ys ih =>
    calc a ≤ max a y := le_max_left _ _
    _ ≤ ys.foldl max (max a y) := ih _
    _ = (y :: ys).foldl max a := rfl

lemma mem_le_foldl_max {l : List ℝ} {x : ℝ} (a : ℝ) (hx : x ∈ l) : x ≤ l.foldl max a := by
  induction l generalizing a with
  | nil => cases hx
  | cons y ys ih =>
    rcases List.mem_cons.mp hx with h | h
    · subst h
      calc x ≤ max a x := le_max_right _ _
      _ ≤ ys.foldl max (max a x) := init_le_foldl_max _ _
      _ = (x :: ys).foldl max a := rfl
    · exact ih _ h

lemma foldl_max_mem (l : List ℝ) (a : ℝ) : l.foldl max a = a ∨ l.foldl max a ∈ l := by
  induction l generalizing a with
  | nil => simp
  | cons y ys ih =>
    rcases ih (max a y) with h | h
    · rcases max_choice a y with hc | hc
      · left
        simpa [hc] using h
      · right
        rw [List.foldl_cons, h, hc]
        exact List.mem_cons_self _ _
    · right
      exact List.mem_cons_of_mem _ h

lemma listMin_le {l : List ℝ} {x : ℝ} (hx : x ∈ l) : listMin l ≤ x := by
  cases l with
  | nil => cases hx
  | cons y ys =>
    rcases List.mem_cons.mp hx with h | h
    · subst h
      exact foldl_min_le_init _ _
    · exact foldl_min_le_mem _ h

lemma le_listMax {l : List ℝ} {x : ℝ} (hx : x ∈ l) : x ≤ listMax l := by
  cases l with
  | nil => cases hx
  | cons y ys =>
    rcases List.mem_cons.mp hx with h | h
    · subst h
      exact init_le_foldl_max _ _
    · exact mem_le_foldl_max _ h

lemma listMin_mem {l : List ℝ} (h : l ≠ []) : listMin l ∈ l := by
  cases l with
  | nil => exact absurd rfl h
  | cons y ys =>
    rcases foldl_min_mem ys y with h | h
    · rw [listMin, h]
      exact List.mem_cons_self _ _
    · exact List.mem_cons_of_mem _ h

lemma listMax_mem {l : List ℝ} (h : l ≠ []) : listMax l ∈ l := by
  cases l with
  | nil => exact absurd rfl h
  | cons y ys =>
    rcases foldl_max_mem ys y with h | h
    · rw [listMax, h]
      exact List.mem_cons_self _ _
    · exact List.mem_cons_of_mem _ h

/-! ### Helper lemmas about the similarity score -/

lemma foldl_add_abs (f : SimilarityCriterion → ℝ) (l : List SimilarityCriterion) (a : ℝ) :
    l.foldl (fun acc c => acc + f c) a = a + (l.map f).sum := by
  induction l generalizing a with
  | nil => simp
  | cons c cs ih =>
    rw [List.foldl_cons, ih, List.map_cons, List.sum_cons]
    ring

/-- The similarity score is the sum, over the selected criteria, of the
absolute normalized differences (also for the empty criteria list, where
the early return and the empty sum agree). -/
lemma calculateSimilarity_eq_sum (home other : Agency) (criteria : List SimilarityCriterion)
    (nv : NormMap) :
    calculateSimilarity home other criteria nv =
      (criteria.map (fun c =>
        |lookupNorm nv c home.ntd_id - lookupNorm nv c other.ntd_id|)).sum := by
  rcases eq_or_ne criteria [] with h | h
  · subst h
    simp [calculateSimilarity]
  · rw [calculateSimilarity, if_neg h, foldl_add_abs, zero_add]

lemma calculateSimilarity_nonneg (home other : Agency) (criteria : List SimilarityCriterion)
    (nv : NormMap) : 0 ≤ calculateSimilarity home other criteria nv := by
  rw [calculateSimilarity_eq_sum]
  apply List.sum_nonneg
  intro x hx
  rcases List.mem_map.mp hx with ⟨c, _, rfl⟩
  exact abs_nonneg _

/-! ### Helper lemmas about normalization -/

lemma normalizeValues_length (values : List ℝ) :
    (normalizeValues values).length = values.length := by
  simp [normalizeValues]

lemma normalizeValues_mem_bounds {values : List ℝ} {x : ℝ}
    (hx : x ∈ normalizeValues values) : 0 ≤ x ∧ x ≤ 1 := by
  rw [normalizeValues] at hx
  set logValues := values.map (fun v => Real.log (v + 1)) with hlog
  set mn := listMin logValues with hmn
  set mx := listMax logValues with hmx
  rcases List.mem_map.mp hx with ⟨v, hv, rfl⟩
  have hvmn : mn ≤ v := listMin_le hv
  have hvmx : v ≤ mx := le_listMax hv
  rcases eq_or_ne (mx - mn) 0 with hdeg | hdeg
  · have hveq : v = mn := le_antisymm (by linarith) hvmn
    rw [if_pos hdeg, hveq]
    norm_num
  · have hrange : 0 < mx - mn := lt_of_le_of_ne (by linarith) (Ne.symm hdeg)
    rw [if_neg hdeg]
    constructor
    · exact div_nonneg (by linarith) (le_of_lt hrange)
    · rw [div_le_one hrange]
      linarith

lemma normalizeValues_degenerate {values : List ℝ}
    (h : listMax (values.map (fun v => Real.log (v + 1))) =
      listMin (values.map (fun v => Real.log (v + 1)))) :
    ∀ x ∈ normalizeValues values, x = 0 := by
  intro x hx
  rw [normalizeValues] at hx
  set logValues := values.map (fun v => Real.log (v + 1)) with hlog
  set mn := listMin logValues with hmn
  set mx := listMax logValues with hmx
  rcases List.mem_map.mp hx with ⟨v, hv, rfl⟩
  have hvmn : mn ≤ v := listMin_le hv
  have hvmx : v ≤ mx := le_listMax hv
  have hveq : v = mn := le_antisymm (by rw [← h] at hvmn ⊢; linarith) hvmn
  rw [hveq]
  simp

lemma normalizeValues_all_zero_of_const {values : List ℝ} {c : ℝ}
    (h : ∀ v ∈ values, v = c) : ∀ x ∈ normalizeValues values, x = 0 := by
  rcases eq_or_ne values [] with hnil | hnil
  · subst hnil
    simp [normalizeValues]
  · apply normalizeValues_degenerate
    have hlognil : values.map (fun v => Real.log (v + 1)) ≠ [] := by
      simpa using hnil
    have hall : ∀ w ∈ values.map (fun v => Real.log (v + 1)), w = Real.log (c + 1) := by
      intro w hw
      rcases List.mem_map.mp hw with ⟨v, hv, rfl⟩
      rw [h v hv]
    rw [hall _ (listMax_mem hlognil), hall _ (listMin_mem hlognil)]

lemma normalizeValues_getD (values : List ℝ) (i : ℕ) (hi : i < values.length) :
    (normalizeValues values).getD i 0 =
      (Real.log (values.getD i 0 + 1) - listMin (values.map (fun v => Real.log (v + 1)))) /
        (if listMax (values.map (fun v => Real.log (v + 1))) -
            listMin (values.map (fun v => Real.log (v + 1))) = 0 then 1
          else listMax (values.map (fun v => Real.log (v + 1))) -
            listMin (values.map (fun v => Real.log (v + 1)))) := by
  have hi' : i < (normalizeValues values).length := by rwa [normalizeValues_length]
  rw [List.getD_eq_getElem _ _ hi', List.getD_eq_getElem _ _ hi]
  simp [normalizeValues]

lemma normalizeValues_getD_mono {values : List ℝ} {i j : ℕ}
    (hi : i < values.length) (hj : j < values.length)
    (hnn : ∀ v ∈ values, 0 ≤ v)
    (hij : values.getD i 0 ≤ values.getD j 0) :
    (normalizeValues values).getD i 0 ≤ (normalizeValues values).getD j 0 := by
  rw [normalizeValues_getD values i hi, normalizeValues_getD values j hj]
  set logValues := values.map (fun v => Real.log (v + 1)) with hlog
  set mn := listMin logValues with hmn
  set mx := listMax logValues with hmx
  have h0 : (0:ℝ) ≤ values.getD i 0 := by
    rw [List.getD_eq_getElem _ _ hi]
    exact hnn _ (List.getElem_mem hi)
  have hmono : Real.log (values.getD i 0 + 1) ≤ Real.log (values.getD j 0 + 1) :=
    Real.log_le_log (by linarith) (by linarith)
  have hmemi : Real.log (values.getD i 0 + 1) ∈ logValues := by
    rw [hlog, List.getD_eq_getElem _ _ hi]
    exact List.mem_map.mpr ⟨values[i], List.getElem_mem hi, rfl⟩
  have hrangepos : 0 < (if mx - mn = 0 then 1 else mx - mn) := by
    rcases eq_or_ne (mx - mn) 0 with hdeg | hdeg
    · rw [if_pos hdeg]
      norm_num
    · have h1 : mn ≤ Real.log (values.getD i 0 + 1) := listMin_le hmemi
      have h2 : Real.log (values.getD i 0 + 1) ≤ mx := le_listMax hmemi
      rw [if_neg hdeg]
      exact lt_of_le_of_ne (by linarith) (Ne.symm hdeg)
  exact (div_le_div_iff_of_pos_right hrangepos).mpr (by linarith)

/-! ### Helper lemmas about candidate filtering -/

lemma peerFilterPred_eq_true (home : Agency) (filters : Filters) (a : Agency) :
    peerFilterPred (some home) filters a = true ↔
      a.ntd_id ≠ home.ntd_id ∧
        (filters.searchQuery ≠ "" → matchesSearch filters a = true) ∧
        (0 < filters.reporterTypes.length → a.reporter_type ∈ filters.reporterTypes) ∧
        (0 < filters.modes.length → ∀ m ∈ filters.modes, m ∈ a.modes) ∧
        (0 < filters.states.length → a.state ∈ filters.states) := by
  rw [peerFilterPred]
  simp only [Option.any_some]
  split_ifs with h1 h2 h3 h4 h5 <;>
    simp_all [List.contains, List.elem_iff]

lemma matchesSearch_eq_true (filters : Filters) (a : Agency) :
    matchesSearch filters a = true ↔
      (filters.searchQuery.toLower.data <:+: a.agency.toLower.data ∨
        filters.searchQuery.toLower.data <:+: a.city.toLower.data ∨
          ∃ u, a.uza_name = some u ∧
            filters.searchQuery.toLower.data <:+: u.toLower.data) := by
  rw [matchesSearch]
  cases h : a.uza_name <;> simp [jsIncludes, h, or_assoc]

lemma mem_filteredAgencies {agencies : List Agency} {home : Agency} {filters : Filters}
    {a : Agency} :
    a ∈ filteredAgencies agencies (some home) filters ↔
      a ∈ agencies ∧ peerFilterPred (some home) filters a = true := by
  rw [filteredAgencies, List.mem_filter]

lemma filteredAgencies_ne_home {agencies : List Agency} {home : Agency} {filters : Filters}
    {a : Agency} (ha : a ∈ filteredAgencies agencies (some home) filters) :
    a.ntd_id ≠ home.ntd_id :=
  ((peerFilterPred_eq_true home filters a).mp (mem_filteredAgencies.mp ha).2).1

/-! ### Helper lemmas about the ranking pipeline -/

lemma rankedAgencies_perm (home : Agency) (cands : List Agency)
    (criteria : List SimilarityCriterion) (nv : NormMap) :
    (rankedAgencies (some home) cands criteria nv).Perm cands := by
  simp only [rankedAgencies]
  have h := (List.mergeSort_perm
    (cands.map (fun agency => (agency, calculateSimilarity home agency criteria nv)))
    (fun a b => decide (a.2 ≤ b.2))).map (fun item => item.1)
  simpa [Function.comp_def] using h

lemma rankedAgencies_pairwise (home : Agency) (cands : List Agency)
    (criteria : List SimilarityCriterion) (nv : NormMap) :
    (rankedAgencies (some home) cands criteria nv).Pairwise
      (fun a b => calculateSimilarity home a criteria nv ≤
        calculateSimilarity home b criteria nv) := by
  simp only [rankedAgencies]
  apply List.pairwise_map.mpr
  have htrans : ∀ a b c : Agency × ℝ, decide (a.2 ≤ b.2) = true →
      decide (b.2 ≤ c.2) = true → decide (a.2 ≤ c.2) = true := by
    intro a b c hab hbc
    simp only [decide_eq_true_eq] at hab hbc ⊢
    exact le_trans hab hbc
  have htotal : ∀ a b : Agency × ℝ, (decide (a.2 ≤ b.2) || decide (b.2 ≤ a.2)) = true := by
    intro a b
    simpa using le_total a.2 b.2
  have hsorted := List.sorted_mergeSort htrans htotal
    (cands.map (fun agency => (agency, calculateSimilarity home agency criteria nv)))
  have hmem : ∀ p ∈ (cands.map
      (fun agency => (agency, calculateSimilarity home agency criteria nv))).mergeSort
        (fun a b => decide (a.2 ≤ b.2)),
      p.2 = calculateSimilarity home p.1 criteria nv := by
    intro p hp
    have hp' := (List.mergeSort_perm _ (fun a b : Agency × ℝ => decide (a.2 ≤ b.2))).mem_iff.mp hp
    rcases List.mem_map.mp hp' with ⟨a, _, rfl⟩
    rfl
  refine hsorted.imp_of_mem ?_
  intro p q hp hq hle
  have := decide_eq_true_eq.mp hle
  rw [hmem p hp, hmem q hq] at this
  exact this

lemma rankedAgencies_nil_criteria (home : Agency) (cands : List Agency) (nv : NormMap) :
    rankedAgencies (some home) cands [] nv = cands := by
  simp only [rankedAgencies]
  have hcalc : ∀ a : Agency, calculateSimilarity home a [] nv = 0 := by
    intro a
    simp [calculateSimilarity]
  rw [List.map_congr_left (fun a _ => by rw [hcalc a] :
    ∀ a ∈ cands, (a, calculateSimilarity home a [] nv) = (a, (0:ℝ)))]
  rw [List.mergeSort_of_sorted]
  · simp [Function.comp_def]
  · apply List.pairwise_map.mpr
    exact List.pairwise_of_forall (by intro x y; simp)

/-! ### Helper lemmas about the selection manager -/

lemma togglePeerSelection_of_mem {s : Finset ℕ} {ntdId : ℕ} (h : ntdId ∈ s) :
    togglePeerSelection s ntdId = s.erase ntdId := by
  rw [togglePeerSelection, if_pos h]

lemma togglePeerSelection_of_not_mem_lt {s : Finset ℕ} {ntdId : ℕ} (h : ntdId ∉ s)
    (hc : s.card < 19) : togglePeerSelection s ntdId = insert ntdId s := by
  rw [togglePeerSelection, if_neg h, if_pos hc]

lemma togglePeerSelection_of_not_mem_ge {s : Finset ℕ} {ntdId : ℕ} (h : ntdId ∉ s)
    (hc : 19 ≤ s.card) : togglePeerSelection s ntdId = s := by
  rw [togglePeerSelection, if_neg h, if_neg (not_lt.mpr hc)]

lemma togglePeerSelection_card_le {s : Finset ℕ} (h : s.card ≤ 19) (ntdId : ℕ) :
    (togglePeerSelection s ntdId).card ≤ 19 := by
  rw [togglePeerSelection]
  split_ifs with h1 h2
  · exact le_trans (Finset.card_erase_le) h
  · rw [Finset.card_insert_of_not_mem h1]
    omega
  · exact h

lemma selectTopN_card_le (n : ℕ) (rankedList : List Agency) :
    (selectTopN n rankedList).card ≤ n := by
  rw [selectTopN]
  calc ((rankedList.take n).map (fun a => a.ntd_id)).toFinset.card
      ≤ ((rankedList.take n).map (fun a => a.ntd_id)).length := List.toFinset_card_le _
    _ = (rankedList.take n).length := List.length_map _ _
    _ ≤ n := by
        rw [List.length_take]
        exact min_le_left _ _

lemma foldl_toggle_card {ids : List ℕ} {s : Finset ℕ} (hnodup : ids.Nodup)
    (hfresh : ∀ id ∈ ids, id ∉ s) (hcard : s.card ≤ 19) :
    (ids.foldl togglePeerSelection s).card = min (s.card + ids.length) 19 := by
  induction ids generalizing s with
  | nil =>
    simp
    omega
  | cons id rest ih =>
    have hid : id ∉ s := hfresh id (List.mem_cons_self _ _)
    rw [List.foldl_cons]
    rcases lt_or_le s.card 19 with hlt | hge
    · rw [togglePeerSelection_of_not_mem_lt hid hlt]
      have hfresh' : ∀ i ∈ rest, i ∉ insert id s := by
        intro i hi
        rw [Finset.mem_insert]
        push_neg
        exact ⟨fun heq => (List.nodup_cons.mp hnodup).1 (heq ▸ hi),
          hfresh i (List.mem_cons_of_mem _ hi)⟩
      have hc' : (insert id s).card = s.card + 1 := Finset.card_insert_of_not_mem hid
      rw [ih (List.nodup_cons.mp hnodup).2 hfresh' (by omega), hc']
      simp only [List.length_cons]
      omega
    · have h19 : s.card = 19 := le_antisymm hcard hge
      rw [togglePeerSelection_of_not_mem_ge hid hge]
      rw [ih (List.nodup_cons.mp hnodup).2 (fun i hi => hfresh i (List.mem_cons_of_mem _ hi))
        hcard]
      simp only [List.length_cons]
      omega

lemma foldl_toggle_stable {ids : List ℕ} {s : Finset ℕ}
    (hfresh : ∀ id ∈ ids, id ∉ s) (hcard : 19 ≤ s.card) :
    ids.foldl togglePeerSelection s = s := by
  induction ids with
  | nil => rfl
  | cons id rest ih =>
    rw [List.foldl_cons,
      togglePeerSelection_of_not_mem_ge (hfresh id (List.mem_cons_self _ _)) hcard]
    exact ih (fun i hi => hfresh i (List.mem_cons_of_mem _ hi))

lemma foldl_toggle_subset (ids : List ℕ) (s : Finset ℕ) :
    ids.foldl togglePeerSelection s ⊆ s ∪ ids.toFinset := by
  induction ids generalizing s with
  | nil => simp
  | cons id rest ih =>
    rw [List.foldl_cons]
    refine subset_trans (ih _) ?_
    have hstep : togglePeerSelection s id ⊆ insert id s := by
      rw [togglePeerSelection]
      split_ifs with h1 h2
      · exact subset_trans (Finset.erase_subset _ _) (Finset.subset_insert _ _)
      · exact subset_refl _
      · exact Finset.subset_insert _ _
    intro x hx
    rcases Finset.mem_union.mp hx with hx | hx
    · rcases Finset.mem_insert.mp (hstep hx) with hx | hx
      · subst hx
        simp
      · simp [hx]
    · simp only [List.toFinset_cons, Finset.mem_union, Finset.mem_insert]
      right
      right
      exact hx

/-! ### Helper lemmas about the precomputed normalized-value map -/

lemma normalizedValuesMap_apply (agencies : List Agency) (c : SimilarityCriterion) :
    normalizedValuesMap agencies c = some (valueMapFor agencies c) := by
  cases c <;> simp [normalizedValuesMap, SIMILARITY_CRITERIA]

lemma foldl_setmap_prop {P : ℝ → Prop} :
    ∀ (zl : List (Agency × ℝ)) (m : ℕ → Option ℝ),
      (∀ p ∈ zl, P p.2) → (∀ id, P ((m id).getD 0)) →
        ∀ id, P (((zl.foldl
          (fun m p => fun id => if id = p.1.ntd_id then some p.2 else m id) m) id).getD 0) := by
  intro zl
  induction zl with
  | nil =>
    intro m _ hm id
    exact hm id
  | cons p rest ih =>
    intro m hp hm id
    rw [List.foldl_cons]
    refine ih _ (fun q hq => hp q (List.mem_cons_of_mem _ hq)) ?_ id
    intro i
    by_cases hi : i = p.1.ntd_id
    · simpa [hi] using hp p (List.mem_cons_self _ _)
    · simpa [hi] using hm i

lemma valueMapFor_getD_prop {P : ℝ → Prop} (agencies : List Agency)
    (key : SimilarityCriterion) (h0 : P 0)
    (hall : ∀ x ∈ normalizeValues (agencies.map (fun a => getCriterionValue a key)), P x)
    (id : ℕ) : P ((valueMapFor agencies key id).getD 0) := by
  rw [valueMapFor]
  refine foldl_setmap_prop _ _ ?_ (by simpa using h0) id
  intro p hp
  exact hall _ (List.of_mem_zip hp).2

lemma lookupNorm_normalizedValuesMap (agencies : List Agency) (c : SimilarityCriterion)
    (id : ℕ) :
    lookupNorm (normalizedValuesMap agencies) c id = (valueMapFor agencies c id).getD 0 := by
  rw [lookupNorm, normalizedValuesMap_apply]
  rfl

lemma getCriterionValue_rides_per_capita {a : Agency} (h : a.rides_per_capita = none) :
    getCriterionValue a .rides_per_capita = 0 := by
  simp [getCriterionValue, h]

lemma lookupNorm_rides_per_capita {agencies : List Agency}
    (hnone : ∀ a ∈ agencies, a.rides_per_capita = none) (id : ℕ) :
    lookupNorm (normalizedValuesMap agencies) .rides_per_capita id = 0 := by
  rw [lookupNorm_normalizedValuesMap]
  refine valueMapFor_getD_prop (P := fun x => x = 0) agencies _ rfl ?_ id
  refine normalizeValues_all_zero_of_const (c := 0) ?_
  intro v hv
  rcases List.mem_map.mp hv with ⟨a, ha, rfl⟩
  exact getCriterionValue_rides_per_capita (hnone a ha)

/-! ### Bridging lemmas between predicate phrasings -/

lemma length_imp_iff {α : Type} (l : List α) (P : Prop) :
    (0 < l.length → P) ↔ (l = [] ∨ P) := by
  rw [or_iff_not_imp_left]
  constructor
  · intro h hne
    exact h (List.length_pos.mpr hne)
  · intro h hpos
    exact h (List.length_pos.mp hpos)

lemma ne_imp_iff (q : String) (P : Prop) : (q ≠ "" → P) ↔ (q = "" ∨ P) :=
  (or_iff_not_imp_left).symm

/-! ### Claim theorems -/

/-- C1: for every home agency, candidate list, selected criteria and
normalized-value mapping, the similarity score of each candidate is the sum
over the selected criteria of the absolute difference of the home and
candidate normalized values, the score is non-negative, and the ranked
output is a permutation of the candidates sorted in ascending order of the
score (smaller means more similar). -/
theorem claim1_similarity_scoring_and_ranking (home : Agency) (candidates : List Agency)
    (criteria : List SimilarityCriterion) (nv : NormMap) :
    (∀ other : Agency, calculateSimilarity home other criteria nv =
        (criteria.map (fun c =>
          |lookupNorm nv c home.ntd_id - lookupNorm nv c other.ntd_id|)).sum) ∧
    (∀ other : Agency, 0 ≤ calculateSimilarity home other criteria nv) ∧
    (rankedAgencies (some home) candidates criteria nv).Perm candidates ∧
    (rankedAgencies (some home) candidates criteria nv).Pairwise
      (fun a b => calculateSimilarity home a criteria nv ≤
        calculateSimilarity home b criteria nv) :=
  ⟨fun other => calculateSimilarity_eq_sum home other criteria nv,
   fun other => calculateSimilarity_nonneg home other criteria nv,
   rankedAgencies_perm home candidates criteria nv,
   rankedAgencies_pairwise home candidates criteria nv⟩

/-- C2: candidate filtering returns exactly the agencies of the universe
that are not the home agency, pass the disjunctive reporter-type and state
predicates, the conjunctive mode predicate, and the case-insensitive
substring search over name, city and metro-area name, each predicate being
a no-op when its selection is empty. -/
theorem claim2_candidate_filtering (agencies : List Agency) (home : Agency)
    (filters : Filters) (a : Agency) :
    a ∈ filteredAgencies agencies (some home) filters ↔
      a ∈ agencies ∧ a.ntd_id ≠ home.ntd_id ∧
        (filters.reporterTypes = [] ∨ a.reporter_type ∈ filters.reporterTypes) ∧
        (filters.modes = [] ∨ ∀ m ∈ filters.modes, m ∈ a.modes) ∧
        (filters.states = [] ∨ a.state ∈ filters.states) ∧
        (filters.searchQuery = "" ∨
          (filters.searchQuery.toLower.data <:+: a.agency.toLower.data ∨
            filters.searchQuery.toLower.data <:+: a.city.toLower.data ∨
              ∃ u, a.uza_name = some u ∧
                filters.searchQuery.toLower.data <:+: u.toLower.data)) := by
  rw [mem_filteredAgencies, peerFilterPred_eq_true, matchesSearch_eq_true,
    length_imp_iff, length_imp_iff, length_imp_iff, ne_imp_iff]
  tauto

/-- C3: over a universe with non-negative raw metric values, every
normalized value lies in the closed interval from 0 to 1 (both as an
element of the normalized list and as read back through the precomputed
map), and when the log-transformed maximum equals the minimum every
normalized value is 0. -/
theorem claim3_normalization_bounded (agencies : List Agency) (c : SimilarityCriterion)
    (hnn : ∀ a ∈ agencies, 0 ≤ getCriterionValue a c) :
    (∀ x ∈ normalizeValues (agencies.map (fun a => getCriterionValue a c)),
        0 ≤ x ∧ x ≤ 1) ∧
    (∀ id : ℕ, 0 ≤ lookupNorm (normalizedValuesMap agencies) c id ∧
        lookupNorm (normalizedValuesMap agencies) c id ≤ 1) ∧
    (listMax ((agencies.map (fun a => getCriterionValue a c)).map
          (fun v => Real.log (v + 1))) =
        listMin ((agencies.map (fun a => getCriterionValue a c)).map
          (fun v => Real.log (v + 1))) →
      ∀ x ∈ normalizeValues (agencies.map (fun a => getCriterionValue a c)), x = 0) := by
  refine ⟨fun x hx => normalizeValues_mem_bounds hx, ?_, fun hdeg => normalizeValues_degenerate hdeg⟩
  intro id
  rw [lookupNorm_normalizedValuesMap]
  exact valueMapFor_getD_prop (P := fun x => 0 ≤ x ∧ x ≤ 1) agencies c
    (by norm_num) (fun x hx => normalizeValues_mem_bounds hx) id

/-- Witness for C3 at a one-agency universe on the ridership criterion. -/
theorem claim3_witness :
    (∀ a ∈ [dummyAgency 0], 0 ≤ getCriterionValue a .ridership) ∧
    (∀ x ∈ normalizeValues ([dummyAgency 0].map (fun a => getCriterionValue a .ridership)),
      0 ≤ x ∧ x ≤ 1) := by
  have hnn : ∀ a ∈ [dummyAgency 0], 0 ≤ getCriterionValue a .ridership := by
    intro a ha
    rcases List.mem_singleton.mp ha with rfl
    simp [dummyAgency, getCriterionValue]
  exact ⟨hnn, (claim3_normalization_bounded [dummyAgency 0] .ridership hnn).1⟩

/-- C4: normalization is monotone non-decreasing: along any criterion, an
agency with a smaller or equal raw extracted value has a smaller or equal
normalized value. -/
theorem claim4_normalization_monotone (agencies : List Agency) (c : SimilarityCriterion)
    (i j : ℕ) (hi : i < agencies.length) (hj : j < agencies.length)
    (hnn : ∀ a ∈ agencies, 0 ≤ getCriterionValue a c)
    (hij : (agencies.map (fun a => getCriterionValue a c)).getD i 0 ≤
      (agencies.map (fun a => getCriterionValue a c)).getD j 0) :
    (normalizeValues (agencies.map (fun a => getCriterionValue a c))).getD i 0 ≤
      (normalizeValues (agencies.map (fun a => getCriterionValue a c))).getD j 0 := by
  refine normalizeValues_getD_mono (by simpa using hi) (by simpa using hj) ?_ hij
  intro v hv
  rcases List.mem_map.mp hv with ⟨a, ha, rfl⟩
  exact hnn a ha

/-- Witness for C4 at a two-agency universe on the ridership criterion. -/
theorem claim4_witness :
    (0 : ℕ) < [dummyAgency 0, dummyAgency 1].length ∧
    (1 : ℕ) < [dummyAgency 0, dummyAgency 1].length ∧
    (∀ a ∈ [dummyAgency 0, dummyAgency 1], 0 ≤ getCriterionValue a .ridership) ∧
    ([dummyAgency 0, dummyAgency 1].map (fun a => getCriterionValue a .ridership)).getD 0 0 ≤
      ([dummyAgency 0, dummyAgency 1].map (fun a => getCriterionValue a .ridership)).getD 1 0 ∧
    (normalizeValues ([dummyAgency 0, dummyAgency 1].map
        (fun a => getCriterionValue a .ridership))).getD 0 0 ≤
      (normalizeValues ([dummyAgency 0, dummyAgency 1].map
        (fun a => getCriterionValue a .ridership))).getD 1 0 := by
  have hi : (0:ℕ) < [dummyAgency 0, dummyAgency 1].length := by norm_num
  have hj : (1:ℕ) < [dummyAgency 0, dummyAgency 1].length := by norm_num
  have hnn : ∀ a ∈ [dummyAgency 0, dummyAgency 1], 0 ≤ getCriterionValue a .ridership := by
    intro a ha
    rcases List.mem_cons.mp ha with rfl | ha
    · simp [dummyAgency, getCriterionValue]
    · rcases List.mem_singleton.mp ha with rfl
      simp [dummyAgency, getCriterionValue]
  have hij : ([dummyAgency 0, dummyAgency 1].map
      (fun a => getCriterionValue a .ridership)).getD 0 0 ≤
      ([dummyAgency 0, dummyAgency 1].map (fun a => getCriterionValue a .ridership)).getD 1 0 := by
    simp [dummyAgency, getCriterionValue]
  exact ⟨hi, hj, hnn, hij,
    claim4_normalization_monotone [dummyAgency 0, dummyAgency 1] .ridership 0 1 hi hj hnn hij⟩

/-- C5: with an empty list of selected criteria every candidate's
similarity score is 0 and the ranked output preserves the candidates'
input order. -/
theorem claim5_empty_criteria_tie (home : Agency) (candidates : List Agency) (nv : NormMap) :
    (∀ other : Agency, calculateSimilarity home other [] nv = 0) ∧
    rankedAgencies (some home) candidates [] nv = candidates :=
  ⟨fun other => by simp [calculateSimilarity],
   rankedAgencies_nil_criteria home candidates nv⟩

/-- C6: toggling removes a member, adds a non-member only below the hard
cap of 19, is a silent no-op at or above the cap, and from the empty
selection any 25 distinct toggles leave exactly 19 selected, the toggles
beyond the 19th changing nothing. -/
theorem claim6_toggle_behavior_and_cap :
    (∀ (s : Finset ℕ) (ntdId : ℕ), ntdId ∈ s →
      togglePeerSelection s ntdId = s.erase ntdId) ∧
    (∀ (s : Finset ℕ) (ntdId : ℕ), ntdId ∉ s → s.card < 19 →
      togglePeerSelection s ntdId = insert ntdId s) ∧
    (∀ (s : Finset ℕ) (ntdId : ℕ), ntdId ∉ s → 19 ≤ s.card →
      togglePeerSelection s ntdId = s) ∧
    (∀ ids : List ℕ, ids.Nodup → ids.length = 25 →
      (ids.foldl togglePeerSelection ∅).card = 19 ∧
        ∀ k, 19 ≤ k → (ids.take k).foldl togglePeerSelection ∅ =
          (ids.take 19).foldl togglePeerSelection ∅) := by
  refine ⟨fun s ntdId h => togglePeerSelection_of_mem h,
    fun s ntdId h hc => togglePeerSelection_of_not_mem_lt h hc,
    fun s ntdId h hc => togglePeerSelection_of_not_mem_ge h hc, ?_⟩
  intro ids hnodup hlen
  constructor
  · rw [foldl_toggle_card hnodup (by simp) (by simp), hlen]
    simp
  · intro k hk
    have hnodup19 : (ids.take 19).Nodup := (List.take_sublist 19 ids).nodup hnodup
    have hcard19 : ((ids.take 19).foldl togglePeerSelection ∅).card = 19 := by
      rw [foldl_toggle_card hnodup19 (by simp) (by simp), List.length_take, hlen]
      simp
    have hsplit : ids.take k = ids.take 19 ++ (ids.drop 19).take (k - 19) := by
      rw [← List.take_add]
      congr 1
      omega
    rw [hsplit, List.foldl_append]
    refine foldl_toggle_stable ?_ (le_of_eq hcard19.symm)
    intro i hi
    have hidrop : i ∈ ids.drop 19 := List.mem_of_mem_take hi
    have hdisj : (ids.take 19).Disjoint (ids.drop 19) := by
      have := hnodup
      rw [← List.take_append_drop 19 ids, List.nodup_append] at this
      exact this.2.2
    intro hmem
    have h1 := foldl_toggle_subset (ids.take 19) ∅ hmem
    rw [Finset.empty_union, List.mem_toFinset] at h1
    exact hdisj h1 hidrop

/-- Witness for C6 on the 25 distinct identifiers 0 to 24. -/
theorem claim6_witness :
    (List.range 25).Nodup ∧ (List.range 25).length = 25 ∧
    ((List.range 25).foldl togglePeerSelection ∅).card = 19 ∧
    ∀ k, 19 ≤ k → ((List.range 25).take k).foldl togglePeerSelection ∅ =
      ((List.range 25).take 19).foldl togglePeerSelection ∅ := by
  have h1 : (List.range 25).Nodup := List.nodup_range 25
  have h2 : (List.range 25).length = 25 := List.length_range 25
  obtain ⟨h3, h4⟩ := claim6_toggle_behavior_and_cap.2.2.2 (List.range 25) h1 h2
  exact ⟨h1, h2, h3, h4⟩

/-- A selection operation that respects the cap on bulk selection: its
`selectTopN` count, when present, is at most 19. -/
def selectionOpBounded : SelectionOp → Prop
  | .selectTop n _ => n ≤ 19
  | _ => True

lemma foldl_ops_card_le {ops : List SelectionOp} :
    ∀ {s : Finset ℕ}, s.card ≤ 19 → (∀ op ∈ ops, selectionOpBounded op) →
      (ops.foldl applySelectionOp s).card ≤ 19 := by
  induction ops with
  | nil =>
    intro s hs _
    exact hs
  | cons op rest ih =>
    intro s hs hops
    rw [List.foldl_cons]
    refine ih ?_ (fun o ho => hops o (List.mem_cons_of_mem _ ho))
    have hop := hops op (List.mem_cons_self _ _)
    cases op with
    | togglePeer ntdId => exact togglePeerSelection_card_le hs ntdId
    | selectTop n rankedList =>
      exact le_trans (selectTopN_card_le n rankedList) hop
    | clearSel => simp [applySelectionOp, clearSelection]

/-- Counterexample to C7 as stated: `selectTopN` has no cap guard, so a
single `selectTopN(20)` on a ranked list of 20 distinct agencies puts 20
identifiers in the selection, exceeding 19. -/
theorem claim7_counterexample :
    19 < (([SelectionOp.selectTop 20 ((List.range 20).map dummyAgency)].foldl
      applySelectionOp ∅)).card := by
  rw [List.foldl_cons, List.foldl_nil]
  show 19 < (selectTopN 20 ((List.range 20).map dummyAgency)).card
  rw [selectTopN, List.take_of_length_le (by simp), List.map_map]
  have hmap : List.map ((fun a => a.ntd_id) ∘ dummyAgency) (List.range 20) =
      List.map id (List.range 20) :=
    List.map_congr_left (fun a _ => rfl)
  rw [hmap, List.map_id, List.toFinset_card_of_nodup (List.nodup_range 20),
    List.length_range]
  norm_num

/-- C7 as amended: starting from the empty selection, any sequence of
toggle, select-top-n and clear operations keeps the selection size at most
19, provided each select-top-n count is at most 19 (the counts the app
invokes are 5 and 10); without that proviso the bound fails, see the
counterexample. -/
theorem claim7_amended_cap_invariant (ops : List SelectionOp)
    (hops : ∀ op ∈ ops, selectionOpBounded op) :
    (ops.foldl applySelectionOp ∅).card ≤ 19 :=
  foldl_ops_card_le (by simp) hops

/-- Witness for C7 on a concrete operation sequence. -/
theorem claim7_witness :
    (∀ op ∈ [SelectionOp.togglePeer 1, SelectionOp.selectTop 5 [],
      SelectionOp.clearSel, SelectionOp.togglePeer 7], selectionOpBounded op) ∧
    (([SelectionOp.togglePeer 1, SelectionOp.selectTop 5 [],
      SelectionOp.clearSel, SelectionOp.togglePeer 7].foldl
        applySelectionOp ∅)).card ≤ 19 := by
  have hops : ∀ op ∈ [SelectionOp.togglePeer 1, SelectionOp.selectTop 5 [],
      SelectionOp.clearSel, SelectionOp.togglePeer 7], selectionOpBounded op := by
    intro op hop
    fin_cases hop <;> simp [selectionOpBounded]
  exact ⟨hops, claim7_amended_cap_invariant _ hops⟩

/-- Counterexample to C8 as stated: `togglePeerSelection` has no guard
against the home agency's identifier, so toggling it directly on an empty
selection adds it. -/
theorem claim8_counterexample :
    (dummyAgency 42).ntd_id ∈ togglePeerSelection ∅ (dummyAgency 42).ntd_id := by
  have h : (dummyAgency 42).ntd_id = 42 := rfl
  rw [h]
  decide

/-- A selection operation that only references candidate identifiers:
toggled ids come from the candidate list and bulk-selected ranked lists are
drawn from it. -/
def opUsesCandidates (cands : List Agency) : SelectionOp → Prop
  | .togglePeer ntdId => ∃ a ∈ cands, a.ntd_id = ntdId
  | .selectTop _ rankedList => ∀ a ∈ rankedList, a ∈ cands
  | .clearSel => True

lemma togglePeerSelection_keeps_out {s : Finset ℕ} {ntdId h : ℕ}
    (hne : ntdId ≠ h) (hs : h ∉ s) : h ∉ togglePeerSelection s ntdId := by
  rw [togglePeerSelection]
  split_ifs with h1 h2
  · intro hmem
    exact hs (Finset.mem_erase.mp hmem).2
  · intro hmem
    rcases Finset.mem_insert.mp hmem with hmem | hmem
    · exact hne hmem.symm
    · exact hs hmem
  · exact hs

lemma selectTopN_keeps_out {n : ℕ} {rankedList : List Agency} {h : ℕ}
    (hr : ∀ a ∈ rankedList, a.ntd_id ≠ h) : h ∉ selectTopN n rankedList := by
  rw [selectTopN]
  intro hmem
  rcases List.mem_map.mp (List.mem_toFinset.mp hmem) with ⟨a, ha, haid⟩
  exact hr a (List.mem_of_mem_take ha) haid

/-- C8 as amended: the toggle handler itself has no guard against the home
agency's identifier (see the counterexample); the home agency stays out of
the selection because the filtered candidate list excludes it.  Starting
from any selection without the home identifier, any sequence of operations
that only references filtered candidates keeps the home identifier out. -/
theorem claim8_amended_home_excluded (agencies : List Agency) (home : Agency)
    (filters : Filters) (ops : List SelectionOp) (s₀ : Finset ℕ)
    (h₀ : home.ntd_id ∉ s₀)
    (hops : ∀ op ∈ ops,
      opUsesCandidates (filteredAgencies agencies (some home) filters) op) :
    home.ntd_id ∉ ops.foldl applySelectionOp s₀ := by
  induction ops generalizing s₀ with
  | nil => exact h₀
  | cons op rest ih =>
    rw [List.foldl_cons]
    refine ih _ ?_ (fun o ho => hops o (List.mem_cons_of_mem _ ho))
    have hop := hops op (List.mem_cons_self _ _)
    cases op with
    | togglePeer ntdId =>
      rcases hop with ⟨a, ha, rfl⟩
      exact togglePeerSelection_keeps_out (filteredAgencies_ne_home ha) h₀
    | selectTop n rankedList =>
      refine selectTopN_keeps_out ?_
      intro a ha
      exact filteredAgencies_ne_home (hop a ha)
    | clearSel => simp [applySelectionOp, clearSelection]

/-- Witness for C8 on a two-agency universe with no active filters. -/
theorem claim8_witness :
    ((dummyAgency 1).ntd_id ∉ (∅ : Finset ℕ)) ∧
    (∀ op ∈ [SelectionOp.togglePeer 2],
      opUsesCandidates (filteredAgencies [dummyAgency 1, dummyAgency 2]
        (some (dummyAgency 1)) INITIAL_FILTERS) op) ∧
    (dummyAgency 1).ntd_id ∉
      [SelectionOp.togglePeer 2].foldl applySelectionOp (∅ : Finset ℕ) := by
  have h₀ : (dummyAgency 1).ntd_id ∉ (∅ : Finset ℕ) := by simp
  have hmem2 : dummyAgency 2 ∈ filteredAgencies [dummyAgency 1, dummyAgency 2]
      (some (dummyAgency 1)) INITIAL_FILTERS := by
    rw [mem_filteredAgencies, peerFilterPred_eq_true]
    refine ⟨by simp, ?_, ?_, ?_, ?_, ?_⟩
    · simp [dummyAgency]
    · intro h
      exact absurd (rfl : INITIAL_FILTERS.searchQuery = "") h
    · intro h
      exact absurd h (by simp [INITIAL_FILTERS])
    · intro h
      exact absurd h (by simp [INITIAL_FILTERS])
    · intro h
      exact absurd h (by simp [INITIAL_FILTERS])
  have hops : ∀ op ∈ [SelectionOp.togglePeer 2],
      opUsesCandidates (filteredAgencies [dummyAgency 1, dummyAgency 2]
        (some (dummyAgency 1)) INITIAL_FILTERS) op := by
    intro op hop
    rcases List.mem_singleton.mp hop with rfl
    exact ⟨dummyAgency 2, hmem2, rfl⟩
  exact ⟨h₀, hops,
    claim8_amended_home_excluded [dummyAgency 1, dummyAgency 2] (dummyAgency 1)
      INITIAL_FILTERS [SelectionOp.togglePeer 2] ∅ h₀ hops⟩

/-- A concrete normalized-value mapping that binds only the population
criterion, and there only the identifier 1 (to the value one half); every
other lookup misses. -/
noncomputable def nvOnlyPop : NormMap :=
  fun c => if c = .population then
    some (fun id => if id = 1 then some (1 / 2) else none)
  else none

/-- Counterexample to C9 as stated: the code has no failure path for an
unknown identifier.  With identifier 2 absent from the mapping, the
normalized-value lookup returns the value 0 (the `?? 0` fallback), and the
similarity request for the unknown agency returns the value one half
instead of failing. -/
theorem claim9_counterexample :
    lookupNorm nvOnlyPop .population 2 = 0 ∧
    calculateSimilarity (dummyAgency 1) (dummyAgency 2) [.population] nvOnlyPop = 1 / 2 := by
  constructor
  · rw [lookupNorm]
    simp [nvOnlyPop]
  · rw [calculateSimilarity]
    simp only [List.foldl_cons, List.foldl_nil, lookupNorm, nvOnlyPop, dummyAgency]
    norm_num

/-- C9 as amended: requesting a normalized value for an identifier absent
from the mapping does not fail; the lookup yields the undefined marker and
the code substitutes 0, so the similarity distance for an unknown agency
is computed as if every missing normalized value were 0. -/
theorem claim9_amended_unknown_id_defaults :
    (∀ (nv : NormMap) (c : SimilarityCriterion) (id : ℕ),
        ((nv c).bind (fun m => m id)) = none → lookupNorm nv c id = 0) ∧
    (∀ (nv : NormMap) (home other : Agency) (criteria : List SimilarityCriterion),
        (∀ c ∈ criteria, ((nv c).bind (fun m => m other.ntd_id)) = none) →
          calculateSimilarity home other criteria nv =
            (criteria.map (fun c => |lookupNorm nv c home.ntd_id|)).sum) := by
  constructor
  · intro nv c id h
    rw [lookupNorm, h]
    rfl
  · intro nv home other criteria h
    rw [calculateSimilarity_eq_sum]
    refine congrArg List.sum (List.map_congr_left ?_)
    intro c hc
    have hzero : lookupNorm nv c other.ntd_id = 0 := by
      rw [lookupNorm, h c hc]
      rfl
    rw [hzero, sub_zero]

/-- Witness for C9 at the concrete mapping `nvOnlyPop` and the unbound
identifier 5. -/
theorem claim9_witness :
    ((nvOnlyPop .ridership).bind (fun m => m 5)) = none ∧
    lookupNorm nvOnlyPop .ridership 5 = 0 := by
  have h : ((nvOnlyPop .ridership).bind (fun m => m 5)) = none := by
    simp [nvOnlyPop]
  exact ⟨h, claim9_amended_unknown_id_defaults.1 nvOnlyPop .ridership 5 h⟩

/-- An agency record whose pipeline-supplied rides-per-capita value is
present (the value 3); used to instantiate the C10 counterexample. -/
noncomputable def agencyWithRides : Agency :=
  { dummyAgency 1 with rides_per_capita := some 3 }

/-- Counterexample to C10 as stated: on the runtime data shape the
rides-per-capita extraction is a data read with a `?? 0` fallback, not the
constant 0; an agency whose `rides_per_capita` is 3 has raw extracted
value 3, so the fallback does not always apply. -/
theorem claim10_counterexample :
    getCriterionValue agencyWithRides .rides_per_capita = 3 ∧
    getCriterionValue agencyWithRides .rides_per_capita ≠ 0 := by
  constructor
  · simp [getCriterionValue, agencyWithRides]
  · norm_num [getCriterionValue, agencyWithRides]

/-- C10 as amended: when every agency of the universe lacks a
rides-per-capita value, the extractor's fallback applies to every record
(raw value 0), every normalized rides-per-capita value is 0 (in
particular equal across agencies), and appending the rides-per-capita
criterion changes neither any similarity distance nor the ranking; an
agency with a pipeline-supplied value instead contributes that value, see
the counterexample. -/
theorem claim10_amended_rides_per_capita_inert (agencies : List Agency)
    (home other : Agency) (candidates : List Agency)
    (criteria : List SimilarityCriterion)
    (hnone : ∀ a ∈ agencies, a.rides_per_capita = none) :
    (∀ a : Agency, a.rides_per_capita = none →
      getCriterionValue a .rides_per_capita = 0) ∧
    (∀ id : ℕ, lookupNorm (normalizedValuesMap agencies) .rides_per_capita id = 0) ∧
    calculateSimilarity home other (criteria ++ [.rides_per_capita])
        (normalizedValuesMap agencies) =
      calculateSimilarity home other criteria (normalizedValuesMap agencies) ∧
    rankedAgencies (some home) candidates (criteria ++ [.rides_per_capita])
        (normalizedValuesMap agencies) =
      rankedAgencies (some home) candidates criteria (normalizedValuesMap agencies) := by
  have hz := lookupNorm_rides_per_capita hnone
  have hcalc : ∀ h o : Agency,
      calculateSimilarity h o (criteria ++ [.rides_per_capita]) (normalizedValuesMap agencies) =
        calculateSimilarity h o criteria (normalizedValuesMap agencies) := by
    intro h o
    rw [calculateSimilarity_eq_sum, calculateSimilarity_eq_sum, List.map_append,
      List.sum_append]
    simp [hz]
  refine ⟨fun a ha => getCriterionValue_rides_per_capita ha, hz, hcalc home other, ?_⟩
  simp only [rankedAgencies]
  rw [List.map_congr_left (fun a _ => by rw [hcalc home a] :
    ∀ a ∈ candidates, (a, calculateSimilarity home a (criteria ++ [.rides_per_capita])
        (normalizedValuesMap agencies)) =
      (a, calculateSimilarity home a criteria (normalizedValuesMap agencies)))]

/-- Witness for C10 on a two-agency universe with absent rides-per-capita
values. -/
theorem claim10_witness :
    (∀ a ∈ [dummyAgency 0, dummyAgency 1], a.rides_per_capita = none) ∧
    calculateSimilarity (dummyAgency 0) (dummyAgency 1)
        ([SimilarityCriterion.ridership] ++ [.rides_per_capita])
        (normalizedValuesMap [dummyAgency 0, dummyAgency 1]) =
      calculateSimilarity (dummyAgency 0) (dummyAgency 1) [SimilarityCriterion.ridership]
        (normalizedValuesMap [dummyAgency 0, dummyAgency 1]) := by
  have hnone : ∀ a ∈ [dummyAgency 0, dummyAgency 1], a.rides_per_capita = none := by
    intro a ha
    rcases List.mem_cons.mp ha with rfl | ha
    · rfl
    · rcases List.mem_singleton.mp ha with rfl
      rfl
  exact ⟨hnone, (claim10_amended_rides_per_capita_inert
    [dummyAgency 0, dummyAgency 1] (dummyAgency 0) (dummyAgency 1) [dummyAgency 1]
    [.ridership] hnone).2.2.1⟩
